import Mathlib

set_option maxRecDepth 8000

/-!
Verification of the Web Clipper sync script (sample-scripts/sync_clips.py),
shallowly embedded in Lean.  Strings are Lean strings (character lists),
the local filesystem is an explicit record of directories and files, and
the HTTP server, the clock and injectable I/O faults form an explicit
environment record (`World`).
-/

/-- Characters kept by the regex class [a-z0-9-] in slugify. -/
def isSlugChar (c : Char) : Bool :=
  (('a' ≤ c) && (c ≤ 'z')) || (('0' ≤ c) && (c ≤ '9')) || (c == '-')

/-- Models re.sub of one or more hyphens by a single hyphen; the Boolean
flag records whether the previously kept character was a hyphen of a run. -/
def collapseAux : Bool → List Char → List Char
  | _, [] => []
  | b, c :: rest =>
    if c = '-' then
      if b then collapseAux true rest else '-' :: collapseAux true rest
    else c :: collapseAux false rest

/-- Models re.sub of a hyphen run to a single hyphen in slugify. -/
def collapseHyphens (l : List Char) : List Char := collapseAux false l

/-- Models str.strip of hyphens from both ends. -/
def stripHyphens (l : List Char) : List Char :=
  (l.dropWhile (fun c => c = '-')).rdropWhile (fun c => c = '-')

/-- Models the character substitution of Python str.replace with
single-character pattern and replacement. -/
def replaceChar (a b : Char) (l : List Char) : List Char :=
  l.map (fun c => if c = a then b else c)

/-- WebClipperSync.slugify on character lists: lowercase, spaces and
underscores to hyphens, drop characters outside [a-z0-9-], collapse hyphen
runs, strip leading and trailing hyphens, truncate to 200 characters. -/
def slugifyL (l : List Char) : List Char :=
  let s1 := l.map Char.toLower
  let s2 := replaceChar ' ' '-' s1
  let s3 := replaceChar '_' '-' s2
  let s4 := s3.filter isSlugChar
  let s5 := collapseHyphens s4
  let s6 := stripHyphens s5
  s6.take 200

/-- WebClipperSync.slugify. -/
def slugify (s : String) : String := ⟨slugifyL s.data⟩

example : slugify "My Article!! Title" = "my-article-title" := by decide
example : slugify "  -- weird_Name__ --" = "weird-name" := by decide
example : slugify "a!b" = "ab" := by decide

/-- Models Python str.replace with a (nonempty) multi-character pattern:
non-overlapping occurrences are replaced left to right.  The fuel argument
is structural and is instantiated with the length of the input, which
bounds the recursion depth for a nonempty pattern. -/
def replaceAllAux (pat rep : List Char) : Nat → List Char → List Char
  | 0, l => l
  | _ + 1, [] => []
  | n + 1, c :: rest =>
    if pat.isPrefixOf (c :: rest) then
      rep ++ replaceAllAux pat rep n (rest.drop (pat.length - 1))
    else
      c :: replaceAllAux pat rep n rest

/-- Models Python str.replace on character lists (empty pattern returns the
input unchanged; the script only uses nonempty patterns). -/
def replaceAll (pat rep : List Char) (l : List Char) : List Char :=
  match pat with
  | [] => l
  | _ :: _ => replaceAllAux pat rep l.length l

/-- Models urllib.parse scheme recognition: an initial run of letters,
digits, plus, minus and dot beginning with a letter and followed by a
colon is a scheme. -/
def isSchemeChar (c : Char) : Bool :=
  c.isAlphanum || (c == '+') || (c == '-') || (c == '.')

/-- Drops a leading url scheme (such as https:) when present. -/
def afterScheme (l : List Char) : List Char :=
  let pre := l.takeWhile isSchemeChar
  match pre.head? with
  | none => l
  | some c0 =>
    if c0.isAlpha then
      match l.drop pre.length with
      | ':' :: rest => rest
      | _ => l
    else l

/-- Models urlparse's netloc/path split: after the scheme, a leading //
introduces the netloc, which extends to the next /, ? or #; otherwise the
netloc is empty and the remainder is the path. -/
def urlparseNetlocPath (l : List Char) : List Char × List Char :=
  let r := afterScheme l
  match r with
  | '/' :: '/' :: rest =>
    let netloc := rest.takeWhile (fun c => !((c == '/') || (c == '?') || (c == '#')))
    (netloc, rest.drop netloc.length)
  | _ => ([], r.takeWhile (fun c => !((c == '?') || (c == '#'))))

/-- Models the ValueError urlparse raises on a bracket appearing without its
partner in the netloc (Invalid IPv6 URL). -/
def urlparseInvalid (url : String) : Bool :=
  let netloc := (urlparseNetlocPath url.data).1
  (netloc.contains '[' && !netloc.contains ']') ||
    (netloc.contains ']' && !netloc.contains '[')

/-- WebClipperSync.extract_site_slug: take urlparse's netloc (falling back
to the first path segment), delete every occurrence of the substring www.,
and slugify; a urlparse failure yields the fixed placeholder. -/
def extract_site_slug (url : String) : String :=
  if urlparseInvalid url then "unknown-site"
  else
    let (netloc, path) := urlparseNetlocPath url.data
    let domain := if netloc ≠ [] then netloc else path.takeWhile (fun c => !(c == '/'))
    let domain := replaceAll "www.".data [] domain
    slugify ⟨domain⟩

example : extract_site_slug "https://www.github.com/foo" = "githubcom" := by decide
example : extract_site_slug "http://[" = "unknown-site" := by decide
example : extract_site_slug "github.com/foo" = "githubcom" := by decide

/-- WebClipperSync.sanitize_filename: replace each of the characters
< > : " / \ | ? * by an underscore and truncate to 200 characters. -/
def sanitize_filename (s : String) : String :=
  let unsafeChars : List Char := ['<', '>', ':', '"', '/', '\\', '|', '?', '*']
  ⟨(unsafeChars.foldl (fun l c => replaceChar c '_' l) s.data).take 200⟩

example : sanitize_filename "../../e.md" = ".._.._e.md" := by decide

/-- Models the shape check datetime.fromisoformat performs on the date part
of its argument: ten characters YYYY-MM-DD with digits in range (the time
part, when present after the tenth character, is not validated here). -/
def isoDatePrefixOk (l : List Char) : Bool :=
  match l with
  | y1 :: y2 :: y3 :: y4 :: '-' :: m1 :: m2 :: '-' :: d1 :: d2 :: rest =>
    (y1.isDigit && y2.isDigit && y3.isDigit && y4.isDigit &&
     m1.isDigit && m2.isDigit && d1.isDigit && d2.isDigit) &&
    (let m := (m1.toNat - 48) * 10 + (m2.toNat - 48)
     let d := (d1.toNat - 48) * 10 + (d2.toNat - 48)
     (1 ≤ m && m ≤ 12) && (1 ≤ d && d ≤ 31)) &&
    (match rest with
     | [] => true
     | c :: _ => (c == 'T') || (c == ' '))
  | _ => false

/-- WebClipperSync.format_date: replace Z by +00:00, parse as an ISO
timestamp and render YYYYMMDD; on a parse failure fall back to today's
date (`today` stands for datetime.utcnow().strftime of the run). -/
def format_date (today : String) (ts : String) : String :=
  let s := replaceAll "Z".data "+00:00".data ts.data
  if isoDatePrefixOk s then ⟨(s.take 10).filter Char.isDigit⟩ else today

example : format_date "20991231" "2026-01-21T12:34:56Z" = "20260121" := by decide
example : format_date "20991231" "not a date" = "20991231" := by decide

/-! Paths and the filesystem model.  A path is its list of components under
the filesystem root; pathlib joining with a string splits it on slashes. -/

/-- Filesystem paths as component lists. -/
abbrev FsPath := List String

/-- Splits a character list on slashes into raw segments. -/
def pySegsAux (cur : List Char) : List Char → List (List Char)
  | [] => [cur]
  | c :: rest => if c = '/' then cur :: pySegsAux [] rest else pySegsAux (cur ++ [c]) rest

/-- Models how pathlib parses a string into path components: split on
slashes and drop empty segments. -/
def pySegs (s : String) : List String :=
  ((pySegsAux [] s.data).filter (fun seg => seg ≠ [])).map (fun seg => ⟨seg⟩)

/-- Models the pathlib / operator with a string right operand: the string's
components are appended, and a leading slash makes the result absolute
(modelled by a root marker component). -/
def pyJoin (p : FsPath) (s : String) : FsPath :=
  if s.data.head? = some '/' then "/" :: pySegs s else p ++ pySegs s

example : pyJoin ["a", "b"] "c.md" = ["a", "b", "c.md"] := by decide
example : pyJoin ["a", "b"] "../../x" = ["a", "b", "..", "..", "x"] := by decide

/-- Operating-system resolution of dot-dot and dot components when a path
is opened: dot-dot removes the preceding component. -/
def resolvePath (p : FsPath) : FsPath :=
  p.foldl
    (fun acc seg =>
      if seg = "." then acc
      else if seg = ".." then acc.dropLast
      else acc ++ [seg])
    []

example : resolvePath ["a", "b", "..", "c"] = ["a", "c"] := by decide

/-- Contents the script writes: the markdown content file, the metadata
sidecar (its JSON rendering is injective in these fields), and raw
attachment bytes. -/
inductive FileData where
  | text (s : String)
  | metadata (id title url mode : String) (tags : List String)
      (notes : String) (created_at synced_at : String)
  | bytes (b : String)
deriving DecidableEq, Repr

/-- The local filesystem: the set of directories created and the files
written, each file carrying its content. -/
structure FS where
  dirs : List FsPath
  files : List (FsPath × FileData)
deriving DecidableEq, Repr

/-- Directory creation (mkdir with exist_ok): a no-op when the directory
is already present. -/
def FS.mkdir (fs : FS) (p : FsPath) : FS :=
  if p ∈ fs.dirs then fs else { fs with dirs := p :: fs.dirs }

/-- File writing: overwrites the content when the path is already a file,
otherwise records a new file. -/
def FS.writeFile (fs : FS) (p : FsPath) (d : FileData) : FS :=
  if fs.files.any (fun f => decide (f.1 = p)) then
    { fs with files := fs.files.map (fun f => if f.1 = p then (p, d) else f) }
  else
    { fs with files := (p, d) :: fs.files }

/-- Models Path.exists: true for a directory or a file at that path. -/
def FS.existsPath (fs : FS) (p : FsPath) : Bool :=
  fs.dirs.any (fun q => decide (q = p)) || fs.files.any (fun f => decide (f.1 = p))

/-- Models shutil.rmtree: removes the directory and everything below it. -/
def FS.rmtree (fs : FS) (p : FsPath) : FS :=
  { dirs := fs.dirs.filter (fun q => !(p.isPrefixOf q)),
    files := fs.files.filter (fun f => !(p.isPrefixOf f.1)) }

/-- The downloaded/skipped/errors counters of WebClipperSync.stats. -/
structure Stats where
  downloaded : Nat
  skipped : Nat
  errors : Nat
deriving DecidableEq, Repr

/-- One clip detail object as returned by the detail endpoint; optional
fields model JSON keys that may be absent (dict.get versus indexing). -/
structure ClipDetail where
  id : String
  mode : Option String
  title : Option String
  url : Option String
  created_at : Option String
  content : Option String
  tags : Option (List String)
  notes : Option String
  images : Option (List (Option String))
deriving DecidableEq, Repr

/-- A clip detail has every key that building the metadata dict indexes
without a default. -/
def ClipDetail.wellFormed (cd : ClipDetail) : Bool :=
  cd.title.isSome && cd.url.isSome && cd.mode.isSome && cd.created_at.isSome

/-- Outcome of one attachment request at the media endpoint. -/
inductive FetchOutcome where
  | ok (bytes : String)
  | notFound
  | httpErr (code : Nat)
  | exn
deriving DecidableEq, Repr

/-- One page of the listing endpoint: the clip ids of the page and the
reported page count. -/
structure PageResp where
  clips : List String
  total_pages : Nat
deriving DecidableEq, Repr

/-- The environment of a run: the remote data set (pages, details and
attachment fetch outcomes), the clock, the output root and the injectable
write faults of the local filesystem. -/
structure World where
  output : FsPath
  today : String
  now : String
  pages : Nat → PageResp
  detail : String → ClipDetail
  fetch : String → String → FetchOutcome
  writeContentOk : String → Bool
  writeMetadataOk : String → Bool
  mkdirMediaOk : String → Bool

/-- Stderr message of download_image, which distinguishes the failure
kinds that its Boolean return value does not. -/
inductive DlMsg where
  | noMessage
  | imageNotFound (filename : String)
  | failedHttp (filename : String) (code : Nat)
  | failedExn (filename : String)
deriving DecidableEq, Repr

/-- WebClipperSync.download_image: on success writes the bytes and returns
True; a 404, any other HTTP error and any other exception are all caught
and yield False. -/
def download_image (w : World) (clip_id filename : String) (output_path : FsPath)
    (fs : FS) : FS × Bool :=
  match w.fetch clip_id filename with
  | .ok b => (fs.writeFile output_path (.bytes b), true)
  | .notFound => (fs, false)
  | .httpErr _ => (fs, false)
  | .exn => (fs, false)

/-- The stderr line download_image prints for each outcome. -/
def download_image_msg (o : FetchOutcome) (filename : String) : DlMsg :=
  match o with
  | .ok _ => .noMessage
  | .notFound => .imageNotFound filename
  | .httpErr c => .failedHttp filename c
  | .exn => .failedExn filename

/-- The mode subdirectory save_clip creates for a clip (mode defaults to
article when absent). -/
def modeDirOf (w : World) (cd : ClipDetail) : FsPath :=
  w.output ++ [cd.mode.getD "article"]

/-- The derived clip directory name: date part, slugified title and
slugified site joined by underscores. -/
def clipDirNameOf (w : World) (cd : ClipDetail) : String :=
  format_date w.today (cd.created_at.getD "") ++ "_" ++
    slugify (cd.title.getD "untitled") ++ "_" ++
    extract_site_slug (cd.url.getD "")

/-- The clip directory save_clip derives for a clip. -/
def clipDirOf (w : World) (cd : ClipDetail) : FsPath :=
  modeDirOf w cd ++ [clipDirNameOf w cd]

/-- The media subdirectory for a clip's attachments. -/
def mediaDirOf (w : World) (cd : ClipDetail) : FsPath :=
  clipDirOf w cd ++ ["media"]

/-- The for loop of save_clip over the images list: each image filename
(defaulting to image.png) is joined to the media directory and fetched;
download_image never raises, so the loop always completes. -/
def downloadImages (w : World) (clip_id : String) (media_dir : FsPath) :
    List (Option String) → FS → FS
  | [], fs => fs
  | img :: rest, fs =>
    let img_filename := img.getD "image.png"
    let img_file := pyJoin media_dir img_filename
    let (fs1, _ok) := download_image w clip_id img_filename img_file fs
    downloadImages w clip_id media_dir rest fs1

/-- The try block of save_clip: write the content file, build and write the
metadata sidecar (indexing raises a KeyError on a missing key), then create
the media directory and download each attachment.  An error result carries
the filesystem at the moment the exception is raised. -/
def save_clip_try (w : World) (cd : ClipDetail) (clip_dir : FsPath)
    (clip_dir_name : String) (fs : FS) : Except FS FS :=
  let content := cd.content.getD ""
  if w.writeContentOk cd.id then
    let fs1 := fs.writeFile (clip_dir ++ [clip_dir_name ++ ".md"]) (.text content)
    match cd.title, cd.url, cd.mode, cd.created_at with
    | some t, some u, some m, some ca =>
      if w.writeMetadataOk cd.id then
        let fs2 := fs1.writeFile (clip_dir ++ ["metadata.json"])
          (.metadata cd.id t u m (cd.tags.getD []) (cd.notes.getD "") ca w.now)
        match cd.images.getD [] with
        | [] => .ok fs2
        | img :: imgs =>
          if w.mkdirMediaOk cd.id then
            let media_dir := clip_dir ++ ["media"]
            let fs3 := fs2.mkdir media_dir
            .ok (downloadImages w cd.id media_dir (img :: imgs) fs3)
          else .error fs2
      else .error fs1
    | _, _, _, _ => .error fs1
  else .error fs

/-- WebClipperSync.save_clip: create the mode directory, derive the clip
directory, skip when it exists, otherwise create it and run the try block;
on an exception the partial directory is removed and errors incremented. -/
def save_clip (w : World) (cd : ClipDetail) (fs : FS) (st : Stats) : FS × Stats :=
  let mode_dir := modeDirOf w cd
  let fs1 := fs.mkdir mode_dir
  let clip_dir_name := clipDirNameOf w cd
  let clip_dir := clipDirOf w cd
  if fs1.existsPath clip_dir then
    (fs1, { st with skipped := st.skipped + 1 })
  else
    let fs2 := fs1.mkdir clip_dir
    match save_clip_try w cd clip_dir clip_dir_name fs2 with
    | .ok fs3 => (fs3, { st with downloaded := st.downloaded + 1 })
    | .error efs =>
      let st1 := { st with errors := st.errors + 1 }
      let fs3 := if efs.existsPath clip_dir then efs.rmtree clip_dir else efs
      (fs3, st1)

/-- The per-page body of sync_all: fetch the detail of each listed clip and
save it, threading the filesystem and the counters. -/
def saveClips (w : World) : List String → FS → Stats → FS × Stats
  | [], fs, st => (fs, st)
  | clip_id :: rest, fs, st =>
    let r := save_clip w (w.detail clip_id) fs st
    saveClips w rest r.1 r.2

/-- The result of a completed run: final filesystem, counters, the
total-clips-found count and the number of listing requests issued. -/
structure RunOut where
  fs : FS
  stats : Stats
  total : Nat
  requests : Nat
deriving DecidableEq, Repr

/-- The pagination loop of sync_all over worlds whose listing and detail
requests succeed: request a page, stop on an empty clips list, process the
page, stop when the reported page count is reached, else continue with the
next page.  The fuel argument only bounds the number of iterations; a none
result means the loop was still running when the fuel ran out. -/
def pageLoop (w : World) : Nat → Nat → FS → Stats → Nat → Option RunOut
  | 0, _, _, _, _ => none
  | fuel + 1, page, fs, st, total =>
    let resp := w.pages page
    match resp.clips with
    | [] => some ⟨fs, st, total, 1⟩
    | c :: cs =>
      let total1 := total + (c :: cs).length
      let (fs1, st1) := saveClips w (c :: cs) fs st
      if resp.total_pages ≤ page then some ⟨fs1, st1, total1, 1⟩
      else
        match pageLoop w fuel (page + 1) fs1 st1 total1 with
        | none => none
        | some r => some { r with requests := r.requests + 1 }

/-- WebClipperSync.sync_all on worlds whose listing and detail requests
succeed: create the output root, then run the pagination loop from page 1
with fresh counters. -/
def runSync (w : World) (fuel : Nat) (fs : FS) : Option RunOut :=
  pageLoop w fuel 1 (fs.mkdir w.output) ⟨0, 0, 0⟩ 0

/-- The plan of a run, read off the server alone: the clip ids the loop
will process and the number of listing requests it will issue. -/
def planPages (w : World) : Nat → Nat → Option (List String × Nat)
  | 0, _ => none
  | fuel + 1, page =>
    let resp := w.pages page
    match resp.clips with
    | [] => some ([], 1)
    | c :: cs =>
      if resp.total_pages ≤ page then some (c :: cs, 1)
      else
        match planPages w fuel (page + 1) with
        | none => none
        | some (ids, n) => some ((c :: cs) ++ ids, n + 1)

/-- Exit code sync_all establishes after printing the summary: sys.exit(1)
when errors are recorded, otherwise the process falls through to a normal
exit. -/
def sync_all_exit (st : Stats) : Nat :=
  if st.errors > 0 then 1 else 0

/-- Outcome of one HTTP request as seen by _make_request. -/
inductive ReqOutcome (α : Type) where
  | ok (a : α)
  | httpError (code : Nat)
  | urlError
deriving DecidableEq, Repr

/-- Result of _make_request: a parsed response, an immediate process exit,
or a re-raised HTTPError. -/
inductive ReqResult (α : Type) where
  | ok (a : α)
  | exits (code : Nat)
  | raised (code : Nat)
deriving DecidableEq, Repr

/-- WebClipperSync._make_request: a 401 and an unreachable server both
terminate the process with exit code 1; any other HTTP error is re-raised;
a successful response is returned. -/
def make_request {α : Type} : ReqOutcome α → ReqResult α
  | .ok a => .ok a
  | .httpError c => if c = 401 then .exits 1 else .raised c
  | .urlError => .exits 1

/-- The token guard of main: a missing or empty token exits with code 1
before any request is made. -/
def main_token_exit (token : Option String) : Option Nat :=
  if token.getD "" = "" then some 1 else none

/-! Basic properties of the filesystem model. -/

/-- A well-formed clip detail used by the concrete witness runs. -/
def cdW1 : ClipDetail :=
  ⟨"c1", some "article", some "Hello World", some "https://example.com/a",
    some "2026-02-03T04:05:06Z", some "body", some ["t1"], some "note", some []⟩

/-- Witness world for the idempotence claim: one page with one clip,
fault-free writes. -/
def wC1 : World where
  output := ["clips"]
  today := "20990101"
  now := "SYNCTIME"
  pages := fun p => if p = 1 then ⟨["c1"], 1⟩ else ⟨[], 1⟩
  detail := fun _ => cdW1
  fetch := fun _ _ => .notFound
  writeContentOk := fun _ => true
  writeMetadataOk := fun _ => true
  mkdirMediaOk := fun _ => true

/-- Witness world for the pagination claim: two nonempty pages, the second
reporting total_pages = 2. -/
def wC3 : World where
  output := ["clips"]
  today := "20990101"
  now := "SYNCTIME"
  pages := fun p => if p = 1 then ⟨["a"], 2⟩ else if p = 2 then ⟨["b"], 2⟩ else ⟨[], 1⟩
  detail := fun _ => cdW1
  fetch := fun _ _ => .notFound
  writeContentOk := fun _ => true
  writeMetadataOk := fun _ => true
  mkdirMediaOk := fun _ => true

/-- Clip detail for the cleanup witness: well formed, no attachments. -/
def cdW2 : ClipDetail :=
  ⟨"c2", some "article", some "Broken Clip", some "https://example.com/b",
    some "2026-02-04T05:06:07Z", some "body2", some [], some "", some []⟩

/-- Witness world for the cleanup claim: the metadata write fails. -/
def wC2 : World where
  output := ["clips"]
  today := "20990101"
  now := "SYNCTIME"
  pages := fun _ => ⟨[], 1⟩
  detail := fun _ => cdW2
  fetch := fun _ _ => .notFound
  writeContentOk := fun _ => true
  writeMetadataOk := fun _ => false
  mkdirMediaOk := fun _ => true

/-- World whose attachment fetches all report not found. -/
def wC7a : World :=
  { wC2 with fetch := fun _ _ => .notFound }

/-- World whose attachment fetches all fail with HTTP 500. -/
def wC7b : World :=
  { wC2 with fetch := fun _ _ => .httpErr 500 }

/-- Clip detail with a dot-dot attachment filename. -/
def cdW9 : ClipDetail :=
  ⟨"c9", some "article", some "T", some "", some "2026-01-01T00:00:00Z",
    some "x", some [], some "", some [some "../../escape.md"]⟩

/-- Witness world for the path-traversal claim: the fetch succeeds. -/
def wC9 : World :=
  { wC2 with
    detail := fun _ => cdW9
    writeMetadataOk := fun _ => true
    fetch := fun _ _ => .ok "B" }

/-- Clip detail with two attachments for the isolation witness. -/
def cdW6 : ClipDetail :=
  ⟨"c6", some "article", some "Pics", some "https://example.com/p",
    some "2026-03-04T05:06:07Z", some "body", some [], some "", some [some "a.png", some "b.png"]⟩

/-- Witness world for attachment isolation: a.png is found, b.png is not. -/
def wC6 : World :=
  { wC2 with
    detail := fun _ => cdW6
    writeMetadataOk := fun _ => true
    fetch := fun _ fn => if fn = "a.png" then .ok "IMG" else .notFound }

/-- The per-character normalisation slugify performs before filtering:
lowercase, then spaces and underscores to hyphens. -/
def pyNormChar (a : Char) : Char :=
  let x := a.toLower
  let y := if x = ' ' then '-' else x
  if y = '_' then '-' else y

theorem FS.existsPath_iff (fs : FS) (p : FsPath) :
    fs.existsPath p = true ↔ p ∈ fs.dirs ∨ ∃ f ∈ fs.files, f.1 = p := by
  simp only [FS.existsPath, Bool.or_eq_true, List.any_eq_true, decide_eq_true_eq]
  constructor
  · rintro (⟨q, hq, rfl⟩ | h)
    · exact Or.inl hq
    · exact Or.inr h
  · rintro (h | h)
    · exact Or.inl ⟨p, h, rfl⟩
    · exact Or.inr h

theorem FS.mkdir_files (fs : FS) (p : FsPath) : (fs.mkdir p).files = fs.files := by
  unfold FS.mkdir; split <;> rfl

theorem FS.mem_dirs_mkdir (fs : FS) (p q : FsPath) (h : q ∈ fs.dirs) :
    q ∈ (fs.mkdir p).dirs := by
  unfold FS.mkdir; split
  · exact h
  · exact List.mem_cons_of_mem _ h

theorem FS.self_mem_dirs_mkdir (fs : FS) (p : FsPath) : p ∈ (fs.mkdir p).dirs := by
  unfold FS.mkdir; split
  · assumption
  · exact List.mem_cons_self _ _

theorem FS.mkdir_of_mem (fs : FS) (p : FsPath) (h : p ∈ fs.dirs) : fs.mkdir p = fs := by
  unfold FS.mkdir; exact if_pos h

theorem FS.existsPath_mkdir_mono (fs : FS) (p q : FsPath)
    (h : fs.existsPath q = true) : (fs.mkdir p).existsPath q = true := by
  rw [FS.existsPath_iff] at h ⊢
  rw [FS.mkdir_files]
  rcases h with h | h
  · exact Or.inl (fs.mem_dirs_mkdir p q h)
  · exact Or.inr h

theorem FS.writeFile_dirs (fs : FS) (p : FsPath) (d : FileData) :
    (fs.writeFile p d).dirs = fs.dirs := by
  unfold FS.writeFile; split <;> rfl

theorem FS.existsPath_writeFile_mono (fs : FS) (p : FsPath) (d : FileData) (q : FsPath)
    (h : fs.existsPath q = true) : (fs.writeFile p d).existsPath q = true := by
  rw [FS.existsPath_iff] at h ⊢
  rw [FS.writeFile_dirs]
  rcases h with h | ⟨f, hf, hfq⟩
  · exact Or.inl h
  · refine Or.inr ?_
    unfold FS.writeFile
    split
    · refine ⟨if f.1 = p then (p, d) else f, List.mem_map_of_mem _ hf, ?_⟩
      by_cases hc : f.1 = p
      · rw [if_pos hc]
        exact hc.symm.trans hfq
      · rw [if_neg hc]
        exact hfq
    · exact ⟨f, List.mem_cons_of_mem _ hf, hfq⟩

theorem isPrefixOf_self {α : Type} [BEq α] [LawfulBEq α] (l : List α) :
    l.isPrefixOf l = true :=
  (List.isPrefixOf_iff_prefix).mpr (List.prefix_refl l)

/-- After rmtree of a directory, nothing (directory or file) remains at
that path. -/
theorem FS.existsPath_rmtree_self (fs : FS) (p : FsPath) :
    (fs.rmtree p).existsPath p = false := by
  rw [Bool.eq_false_iff]
  intro h
  rw [FS.existsPath_iff] at h
  rcases h with h | ⟨f, hf, hfp⟩
  · unfold FS.rmtree at h
    simp only [List.mem_filter, Bool.not_eq_eq_eq_not, Bool.not_true] at h
    rw [isPrefixOf_self] at h
    exact absurd h.2 (by simp)
  · unfold FS.rmtree at hf
    simp only [List.mem_filter, Bool.not_eq_eq_eq_not, Bool.not_true] at hf
    rw [hfp, isPrefixOf_self] at hf
    exact absurd hf.2 (by simp)

theorem downloadImages_dirs (w : World) (clip_id : String) (media_dir : FsPath)
    (l : List (Option String)) (fs : FS) :
    (downloadImages w clip_id media_dir l fs).dirs = fs.dirs := by
  induction l generalizing fs with
  | nil => rfl
  | cons img rest ih =>
    simp only [downloadImages, download_image]
    cases hf : w.fetch clip_id (img.getD "image.png") with
    | ok b => rw [ih]; exact FS.writeFile_dirs _ _ _
    | notFound => exact ih fs
    | httpErr c => exact ih fs
    | exn => exact ih fs

theorem existsPath_downloadImages_mono (w : World) (clip_id : String)
    (media_dir : FsPath) (l : List (Option String)) (fs : FS) (q : FsPath)
    (h : fs.existsPath q = true) :
    (downloadImages w clip_id media_dir l fs).existsPath q = true := by
  induction l generalizing fs with
  | nil => exact h
  | cons img rest ih =>
    simp only [downloadImages, download_image]
    cases hf : w.fetch clip_id (img.getD "image.png") with
    | ok b => exact ih _ (fs.existsPath_writeFile_mono _ _ _ h)
    | notFound => exact ih fs h
    | httpErr c => exact ih fs h
    | exn => exact ih fs h

theorem save_clip_try_ok_mono (w : World) (cd : ClipDetail) (clip_dir : FsPath)
    (name : String) (fs fs' : FS)
    (h : save_clip_try w cd clip_dir name fs = .ok fs') :
    (∀ q, q ∈ fs.dirs → q ∈ fs'.dirs) ∧
      (∀ p, fs.existsPath p = true → fs'.existsPath p = true) := by
  obtain ⟨cid, cmode, ctitle, curl, cca, ccontent, ctags, cnotes, cimages⟩ := cd
  unfold save_clip_try at h
  cases hw : w.writeContentOk cid <;> rw [hw] at h
  · simp at h
  · simp only [if_true] at h
    cases ctitle <;> cases curl <;> cases cmode <;> cases cca <;> simp only [] at h <;>
      try exact absurd h (by simp)
    cases hm : w.writeMetadataOk cid <;> rw [hm] at h
    · simp at h
    · simp only [if_true] at h
      cases himgs : cimages.getD [] <;> rw [himgs] at h
      · cases h with
        | refl =>
          refine ⟨?_, ?_⟩
          · intro q hq
            rw [FS.writeFile_dirs, FS.writeFile_dirs]; exact hq
          · intro p hp
            exact FS.existsPath_writeFile_mono _ _ _ _
              (FS.existsPath_writeFile_mono _ _ _ _ hp)
      · cases hmm : w.mkdirMediaOk cid <;> rw [hmm] at h
        · simp at h
        · simp only [if_true] at h
          cases h with
          | refl =>
            refine ⟨?_, ?_⟩
            · intro q hq
              rw [downloadImages_dirs]
              refine FS.mem_dirs_mkdir _ _ _ ?_
              rw [FS.writeFile_dirs, FS.writeFile_dirs]; exact hq
            · intro p hp
              refine existsPath_downloadImages_mono _ _ _ _ _ _ ?_
              refine FS.existsPath_mkdir_mono _ _ _ ?_
              exact FS.existsPath_writeFile_mono _ _ _ _
                (FS.existsPath_writeFile_mono _ _ _ _ hp)

theorem save_clip_try_ok_flags (w : World) (cd : ClipDetail) (clip_dir : FsPath)
    (name : String) (fs fs' : FS)
    (h : save_clip_try w cd clip_dir name fs = .ok fs') :
    w.writeContentOk cd.id = true ∧ cd.wellFormed = true ∧
      w.writeMetadataOk cd.id = true ∧
      (cd.images.getD [] ≠ [] → w.mkdirMediaOk cd.id = true) := by
  obtain ⟨cid, cmode, ctitle, curl, cca, ccontent, ctags, cnotes, cimages⟩ := cd
  unfold save_clip_try at h
  cases hw : w.writeContentOk cid <;> rw [hw] at h
  · simp at h
  · simp only [if_true] at h
    cases ctitle <;> cases curl <;> cases cmode <;> cases cca <;> simp only [] at h <;>
      try exact absurd h (by simp)
    cases hm : w.writeMetadataOk cid <;> rw [hm] at h
    · simp at h
    · simp only [if_true] at h
      cases himgs : cimages.getD [] <;> rw [himgs] at h
      · exact ⟨rfl, rfl, rfl, fun hne => absurd rfl hne⟩
      · cases hmm : w.mkdirMediaOk cid <;> rw [hmm] at h
        · simp at h
        · exact ⟨rfl, rfl, rfl, fun _ => rfl⟩

theorem save_clip_try_ok_of_flags (w : World) (cd : ClipDetail) (clip_dir : FsPath)
    (name : String) (fs : FS)
    (hc : w.writeContentOk cd.id = true) (hwf : cd.wellFormed = true)
    (hm : w.writeMetadataOk cd.id = true) (hmm : w.mkdirMediaOk cd.id = true) :
    ∃ fs', save_clip_try w cd clip_dir name fs = .ok fs' := by
  obtain ⟨cid, cmode, ctitle, curl, cca, ccontent, ctags, cnotes, cimages⟩ := cd
  simp only [ClipDetail.wellFormed, Bool.and_eq_true, Option.isSome_iff_exists] at hwf
  obtain ⟨⟨⟨⟨t, ht⟩, ⟨u, hu⟩⟩, ⟨m, hm2⟩⟩, ⟨ca, hca⟩⟩ := hwf
  unfold save_clip_try
  subst ht hu hm2 hca
  rw [hc]
  simp only [if_true]
  rw [hm]
  simp only [if_true]
  cases himgs : cimages.getD [] <;> rw [hmm] <;> simp

/-- Each save_clip call increments exactly one of the three counters. -/
theorem save_clip_stats_cases (w : World) (cd : ClipDetail) (fs : FS) (st : Stats) :
    (save_clip w cd fs st).2 = ⟨st.downloaded + 1, st.skipped, st.errors⟩ ∨
      (save_clip w cd fs st).2 = ⟨st.downloaded, st.skipped + 1, st.errors⟩ ∨
      (save_clip w cd fs st).2 = ⟨st.downloaded, st.skipped, st.errors + 1⟩ := by
  unfold save_clip
  cases hex : (fs.mkdir (modeDirOf w cd)).existsPath (clipDirOf w cd) <;>
    simp only [hex]
  · cases htry : save_clip_try w cd (clipDirOf w cd) (clipDirNameOf w cd)
        ((fs.mkdir (modeDirOf w cd)).mkdir (clipDirOf w cd)) <;> simp only [htry]
    · exact Or.inr (Or.inr rfl)
    · exact Or.inl rfl
  · exact Or.inr (Or.inl rfl)

/-- When the mode directory already exists and the clip directory is
already present, save_clip is a pure skip: the filesystem is unchanged and
only the skipped counter moves. -/
theorem save_clip_skip (w : World) (cd : ClipDetail) (fs : FS) (st : Stats)
    (hmode : modeDirOf w cd ∈ fs.dirs)
    (hex : fs.existsPath (clipDirOf w cd) = true) :
    save_clip w cd fs st = (fs, ⟨st.downloaded, st.skipped + 1, st.errors⟩) := by
  simp only [save_clip]
  rw [FS.mkdir_of_mem fs _ hmode, hex]
  simp

/-- A save that does not record an error preserves directories and path
existence, and afterwards the clip's mode directory and clip directory are
both present. -/
theorem save_clip_no_error_post (w : World) (cd : ClipDetail) (fs : FS) (st : Stats)
    (herr : (save_clip w cd fs st).2.errors = st.errors) :
    (∀ q, q ∈ fs.dirs → q ∈ (save_clip w cd fs st).1.dirs) ∧
      (∀ p, fs.existsPath p = true → (save_clip w cd fs st).1.existsPath p = true) ∧
      modeDirOf w cd ∈ (save_clip w cd fs st).1.dirs ∧
      (save_clip w cd fs st).1.existsPath (clipDirOf w cd) = true := by
  unfold save_clip at herr ⊢
  cases hex : (fs.mkdir (modeDirOf w cd)).existsPath (clipDirOf w cd) <;>
    simp only [hex] at herr ⊢
  · cases htry : save_clip_try w cd (clipDirOf w cd) (clipDirNameOf w cd)
        ((fs.mkdir (modeDirOf w cd)).mkdir (clipDirOf w cd)) <;>
      simp only [htry] at herr ⊢
    · exact absurd herr (by simp)
    · rename_i fs3
      obtain ⟨hdirs, hex2⟩ := save_clip_try_ok_mono w cd _ _ _ _ htry
      refine ⟨?_, ?_, ?_, ?_⟩
      · intro q hq
        exact hdirs q (FS.mem_dirs_mkdir _ _ _ (FS.mem_dirs_mkdir _ _ _ hq))
      · intro p hp
        exact hex2 p (FS.existsPath_mkdir_mono _ _ _ (FS.existsPath_mkdir_mono _ _ _ hp))
      · exact hdirs _ (FS.mem_dirs_mkdir _ _ _ (FS.self_mem_dirs_mkdir _ _))
      · rw [FS.existsPath_iff]
        exact Or.inl (hdirs _ (FS.self_mem_dirs_mkdir _ _))
  · refine ⟨?_, ?_, ?_, hex⟩
    · intro q hq
      exact FS.mem_dirs_mkdir _ _ _ hq
    · intro p hp
      exact FS.existsPath_mkdir_mono _ _ _ hp
    · exact FS.self_mem_dirs_mkdir _ _

/-- Under fault-free writes and a well-formed detail, save_clip never
records an error. -/
theorem save_clip_no_error_of_flags (w : World) (cd : ClipDetail) (fs : FS) (st : Stats)
    (hc : w.writeContentOk cd.id = true) (hwf : cd.wellFormed = true)
    (hm : w.writeMetadataOk cd.id = true) (hmm : w.mkdirMediaOk cd.id = true) :
    (save_clip w cd fs st).2.errors = st.errors := by
  unfold save_clip
  cases hex : (fs.mkdir (modeDirOf w cd)).existsPath (clipDirOf w cd) <;>
    simp only [hex]
  · obtain ⟨fs', hfs'⟩ := save_clip_try_ok_of_flags w cd (clipDirOf w cd)
      (clipDirNameOf w cd) ((fs.mkdir (modeDirOf w cd)).mkdir (clipDirOf w cd)) hc hwf hm hmm
    simp [hfs']
  · rfl

theorem save_clip_errors_ge (w : World) (cd : ClipDetail) (fs : FS) (st : Stats) :
    st.errors ≤ (save_clip w cd fs st).2.errors := by
  rcases save_clip_stats_cases w cd fs st with h | h | h <;> (rw [h]; try simp)

theorem saveClips_append (w : World) (a b : List String) (fs : FS) (st : Stats) :
    saveClips w (a ++ b) fs st =
      saveClips w b (saveClips w a fs st).1 (saveClips w a fs st).2 := by
  induction a generalizing fs st with
  | nil => rfl
  | cons clip_id rest ih =>
    simp only [List.cons_append, saveClips]
    exact ih _ _

theorem saveClips_errors_ge (w : World) (ids : List String) (fs : FS) (st : Stats) :
    st.errors ≤ (saveClips w ids fs st).2.errors := by
  induction ids generalizing fs st with
  | nil => exact Nat.le_refl _
  | cons clip_id rest ih =>
    simp only [saveClips]
    exact Nat.le_trans (save_clip_errors_ge w _ fs st) (ih _ _)

/-- After a page of saves that records no error, every processed clip's
mode directory and clip directory are present, and directories and path
existence are preserved. -/
theorem saveClips_no_error_post (w : World) (ids : List String) (fs : FS) (st : Stats)
    (herr : (saveClips w ids fs st).2.errors = st.errors) :
    (∀ q, q ∈ fs.dirs → q ∈ (saveClips w ids fs st).1.dirs) ∧
      (∀ p, fs.existsPath p = true → (saveClips w ids fs st).1.existsPath p = true) ∧
      (∀ clip_id ∈ ids,
        modeDirOf w (w.detail clip_id) ∈ (saveClips w ids fs st).1.dirs ∧
          (saveClips w ids fs st).1.existsPath (clipDirOf w (w.detail clip_id)) = true) := by
  induction ids generalizing fs st with
  | nil => exact ⟨fun q h => h, fun p h => h, by simp⟩
  | cons clip_id rest ih =>
    simp only [saveClips] at herr ⊢
    have hstep : (save_clip w (w.detail clip_id) fs st).2.errors = st.errors := by
      have h1 := save_clip_errors_ge w (w.detail clip_id) fs st
      have h2 := saveClips_errors_ge w rest (save_clip w (w.detail clip_id) fs st).1
        (save_clip w (w.detail clip_id) fs st).2
      omega
    have hrest : (saveClips w rest (save_clip w (w.detail clip_id) fs st).1
        (save_clip w (w.detail clip_id) fs st).2).2.errors =
        (save_clip w (w.detail clip_id) fs st).2.errors := by
      rw [herr, hstep]
    obtain ⟨hd1, he1, hmode1, hclip1⟩ := save_clip_no_error_post w (w.detail clip_id) fs st hstep
    obtain ⟨hd2, he2, hrest2⟩ := ih _ _ hrest
    refine ⟨?_, ?_, ?_⟩
    · intro q hq
      exact hd2 q (hd1 q hq)
    · intro p hp
      exact he2 p (he1 p hp)
    · intro cid hcid
      rcases List.mem_cons.mp hcid with rfl | hcid2
      · exact ⟨hd2 _ hmode1, he2 _ hclip1⟩
      · exact hrest2 cid hcid2

/-- A page of saves over clips that are all already synced leaves the
filesystem unchanged and only counts skips. -/
theorem saveClips_all_skip (w : World) (ids : List String) (fs : FS) (st : Stats)
    (hall : ∀ clip_id ∈ ids,
      modeDirOf w (w.detail clip_id) ∈ fs.dirs ∧
        fs.existsPath (clipDirOf w (w.detail clip_id)) = true) :
    saveClips w ids fs st = (fs, ⟨st.downloaded, st.skipped + ids.length, st.errors⟩) := by
  induction ids generalizing st with
  | nil =>
    simp only [saveClips, List.length_nil, Nat.add_zero]
  | cons clip_id rest ih =>
    simp only [saveClips]
    obtain ⟨hmode, hex⟩ := hall clip_id (List.mem_cons_self _ _)
    rw [save_clip_skip w _ fs st hmode hex]
    rw [ih _ (fun i hi => hall i (List.mem_cons_of_mem _ hi))]
    simp only [List.length_cons, Prod.mk.injEq, Stats.mk.injEq, true_and, and_true]
    omega

/-- Under fault-free writes and well-formed details, a page of saves
records no error. -/
theorem saveClips_no_error_of_flags (w : World) (ids : List String) (fs : FS) (st : Stats)
    (hW : ∀ i : String, w.writeContentOk i = true ∧ w.writeMetadataOk i = true ∧
      w.mkdirMediaOk i = true)
    (hD : ∀ i : String, (w.detail i).wellFormed = true) :
    (saveClips w ids fs st).2.errors = st.errors := by
  induction ids generalizing fs st with
  | nil => rfl
  | cons clip_id rest ih =>
    simp only [saveClips]
    rw [ih _ _]
    exact save_clip_no_error_of_flags w _ fs st
      ((hW (w.detail clip_id).id).1 ) (hD clip_id)
      ((hW (w.detail clip_id).id).2.1) ((hW (w.detail clip_id).id).2.2)

/-- The counters move by exactly the number of processed clips. -/
theorem saveClips_stats_sum (w : World) (ids : List String) (fs : FS) (st : Stats) :
    (saveClips w ids fs st).2.downloaded + (saveClips w ids fs st).2.skipped +
      (saveClips w ids fs st).2.errors =
      st.downloaded + st.skipped + st.errors + ids.length := by
  induction ids generalizing fs st with
  | nil => simp [saveClips]
  | cons clip_id rest ih =>
    simp only [saveClips, List.length_cons]
    rw [ih _ _]
    rcases save_clip_stats_cases w (w.detail clip_id) fs st with h | h | h <;>
      rw [h] <;> simp <;> omega

/-- The pagination loop factors through its plan: which pages are visited
and how many requests are issued depend only on the server, and the
processed clips are saved in order. -/
theorem pageLoop_eq_plan (w : World) :
    ∀ (fuel page : Nat) (fs : FS) (st : Stats) (t : Nat),
      pageLoop w fuel page fs st t =
        match planPages w fuel page with
        | none => none
        | some (ids, n) =>
          some ⟨(saveClips w ids fs st).1, (saveClips w ids fs st).2, t + ids.length, n⟩ := by
  intro fuel
  induction fuel with
  | zero => intro page fs st t; rfl
  | succ fuel ih =>
    intro page fs st t
    simp only [pageLoop, planPages]
    cases hresp : (w.pages page).clips with
    | nil => simp [saveClips]
    | cons c cs =>
      by_cases hle : (w.pages page).total_pages ≤ page
      · simp [hle]
      · simp only [hle, if_false]
        rw [ih]
        cases hplan : planPages w fuel (page + 1) with
        | none => rfl
        | some r =>
          obtain ⟨ids, n⟩ := r
          simp only [← List.cons_append, saveClips_append, List.length_append,
            List.length_cons]
          have harith : t + (cs.length + 1) + ids.length = t + (cs.length + 1 + ids.length) := by
            omega
          rw [harith]
  

/-- When every page before N is nonempty and reports more pages, and page N
is nonempty and reports exactly N pages, the plan from any page up to N
issues exactly the remaining number of listing requests. -/
theorem planPages_requests (w : World) (N : Nat)
    (hmid : ∀ k, 1 ≤ k → k < N → (w.pages k).clips ≠ [] ∧ k < (w.pages k).total_pages)
    (hlastA : (w.pages N).clips ≠ []) (hlastB : (w.pages N).total_pages = N) :
    ∀ fuel page, 1 ≤ page → page ≤ N → N - page < fuel →
      ∃ ids, planPages w fuel page = some (ids, N + 1 - page) := by
  intro fuel
  induction fuel with
  | zero => intro page h1 h2 h3; omega
  | succ fuel ih =>
    intro page h1 h2 h3
    simp only [planPages]
    rcases Nat.lt_or_ge page N with hlt | hge
    · obtain ⟨hne, hpg⟩ := hmid page h1 hlt
      cases hresp : (w.pages page).clips with
      | nil => exact absurd hresp hne
      | cons c cs =>
        have hnotle : ¬((w.pages page).total_pages ≤ page) := Nat.not_le.mpr hpg
        simp only [hnotle, if_false]
        obtain ⟨ids, hplan⟩ := ih (page + 1) (by omega) (by omega) (by omega)
        rw [hplan]
        have harith : N + 1 - (page + 1) + 1 = N + 1 - page := by omega
        exact ⟨(c :: cs) ++ ids, by rw [← harith]⟩
    · have hpn : page = N := Nat.le_antisymm h2 hge
      subst hpn
      cases hresp : (w.pages page).clips with
      | nil => exact absurd hresp hlastA
      | cons c cs =>
        have hle : (w.pages page).total_pages ≤ page := Nat.le_of_eq hlastB
        simp only [hle, if_true]
        rw [show page + 1 - page = 1 from by omega]
        exact ⟨c :: cs, rfl⟩

/-- An empty page ends the pagination loop immediately: one request, no
clips processed, state unchanged. -/
theorem pageLoop_empty (w : World) (m page : Nat) (fs : FS) (st : Stats) (t : Nat)
    (hempty : (w.pages page).clips = []) :
    pageLoop w (m + 1) page fs st t = some ⟨fs, st, t, 1⟩ := by
  simp only [pageLoop, hempty]

/-- C1: running sync twice against an unchanged remote data set (well-formed
details, fault-free local writes) is idempotent: the second run returns the
same on-disk tree, downloads nothing, records no error, and skips every
clip (its skipped counter equals the total clip count). -/
theorem sync_idempotent (w : World) (fuel : Nat) (fs0 : FS) (r1 : RunOut)
    (hW : ∀ i : String, w.writeContentOk i = true ∧ w.writeMetadataOk i = true ∧
      w.mkdirMediaOk i = true)
    (hD : ∀ i : String, (w.detail i).wellFormed = true)
    (h1 : runSync w fuel fs0 = some r1) :
    r1.stats.errors = 0 ∧
      ∃ r2, runSync w fuel r1.fs = some r2 ∧ r2.fs = r1.fs ∧
        r2.stats.downloaded = 0 ∧ r2.stats.errors = 0 ∧
        r2.stats.skipped = r2.total ∧ r2.total = r1.total := by
  unfold runSync at h1 ⊢
  rw [pageLoop_eq_plan] at h1
  cases hplan : planPages w fuel 1 with
  | none => rw [hplan] at h1; exact absurd h1 (by simp)
  | some pr =>
    obtain ⟨ids, n⟩ := pr
    rw [hplan] at h1
    simp only [Option.some.injEq] at h1
    subst h1
    have herr0 : (saveClips w ids (fs0.mkdir w.output) ⟨0, 0, 0⟩).2.errors = 0 :=
      saveClips_no_error_of_flags w ids (fs0.mkdir w.output) ⟨0, 0, 0⟩ hW hD
    obtain ⟨hd, he, hall⟩ :=
      saveClips_no_error_post w ids (fs0.mkdir w.output) ⟨0, 0, 0⟩ herr0
    refine ⟨herr0, ?_⟩
    have hroot : w.output ∈ (saveClips w ids (fs0.mkdir w.output) ⟨0, 0, 0⟩).1.dirs :=
      hd w.output (FS.self_mem_dirs_mkdir fs0 w.output)
    rw [FS.mkdir_of_mem _ _ hroot, pageLoop_eq_plan, hplan]
    have hskip := saveClips_all_skip w ids
      (saveClips w ids (fs0.mkdir w.output) ⟨0, 0, 0⟩).1 ⟨0, 0, 0⟩ hall
    refine ⟨_, rfl, ?_, ?_, ?_, ?_, ?_⟩ <;> rw [hskip]

/-- C3: the pagination loop issues exactly as many listing requests as the
reported page count when the last page reports total_pages equal to its own
number, and an empty page ends the loop immediately with no further
processing. -/
theorem pagination_terminates (w : World) (N fuel : Nat) (fs : FS)
    (hN : 1 ≤ N) (hfuel : N ≤ fuel)
    (hmid : ∀ k, 1 ≤ k → k < N → (w.pages k).clips ≠ [] ∧ k < (w.pages k).total_pages)
    (hlastA : (w.pages N).clips ≠ []) (hlastB : (w.pages N).total_pages = N) :
    (∃ r, runSync w fuel fs = some r ∧ r.requests = N) ∧
      (∀ (w' : World) (m page : Nat) (fs' : FS) (st : Stats) (t : Nat),
        (w'.pages page).clips = [] →
          pageLoop w' (m + 1) page fs' st t = some ⟨fs', st, t, 1⟩) := by
  constructor
  · obtain ⟨ids, hplan⟩ :=
      planPages_requests w N hmid hlastA hlastB fuel 1 (Nat.le_refl 1) hN (by omega)
    unfold runSync
    rw [pageLoop_eq_plan, hplan]
    refine ⟨_, rfl, ?_⟩
    show N + 1 - 1 = N
    omega
  · intro w' m page fs' st t hempty
    exact pageLoop_empty w' m page fs' st t hempty

/-- C10: every save_clip call increments exactly one of the downloaded,
skipped and errors counters by exactly one, and consequently after a
completed run the three counters sum to the number of clips processed. -/
theorem stats_counter_invariant :
    (∀ (w : World) (cd : ClipDetail) (fs : FS) (st : Stats),
      (save_clip w cd fs st).2 = ⟨st.downloaded + 1, st.skipped, st.errors⟩ ∨
        (save_clip w cd fs st).2 = ⟨st.downloaded, st.skipped + 1, st.errors⟩ ∨
        (save_clip w cd fs st).2 = ⟨st.downloaded, st.skipped, st.errors + 1⟩) ∧
      (∀ (w : World) (fuel : Nat) (fs : FS) (r : RunOut),
        runSync w fuel fs = some r →
          r.stats.downloaded + r.stats.skipped + r.stats.errors = r.total) := by
  refine ⟨save_clip_stats_cases, ?_⟩
  intro w fuel fs r h
  unfold runSync at h
  rw [pageLoop_eq_plan] at h
  cases hplan : planPages w fuel 1 with
  | none => rw [hplan] at h; exact absurd h (by simp)
  | some pr =>
    obtain ⟨ids, n⟩ := pr
    rw [hplan] at h
    simp only [Option.some.injEq] at h
    subst h
    have hsum := saveClips_stats_sum w ids (fs.mkdir w.output) ⟨0, 0, 0⟩
    simp only at hsum ⊢
    omega

/-- C2: for a clip whose directory does not already exist, any exception
inside the try block (content write, metadata build or write, media
directory creation) leaves no clip directory behind and increments the
errors counter by exactly one, the other counters unchanged. -/
theorem save_clip_error_cleanup (w : World) (cd : ClipDetail) (fs : FS) (st : Stats)
    (hnew : (fs.mkdir (modeDirOf w cd)).existsPath (clipDirOf w cd) = false)
    (hexn : w.writeContentOk cd.id = false ∨ cd.wellFormed = false ∨
      w.writeMetadataOk cd.id = false ∨
      (cd.images.getD [] ≠ [] ∧ w.mkdirMediaOk cd.id = false)) :
    (save_clip w cd fs st).1.existsPath (clipDirOf w cd) = false ∧
      (save_clip w cd fs st).2 = ⟨st.downloaded, st.skipped, st.errors + 1⟩ := by
  have htry : ∃ efs, save_clip_try w cd (clipDirOf w cd) (clipDirNameOf w cd)
      ((fs.mkdir (modeDirOf w cd)).mkdir (clipDirOf w cd)) = .error efs := by
    cases h : save_clip_try w cd (clipDirOf w cd) (clipDirNameOf w cd)
        ((fs.mkdir (modeDirOf w cd)).mkdir (clipDirOf w cd)) with
    | error e => exact ⟨e, rfl⟩
    | ok f =>
      obtain ⟨h1, h2, h3, h4⟩ := save_clip_try_ok_flags w cd _ _ _ _ h
      rcases hexn with he | he | he | ⟨hne, he⟩
      · rw [h1] at he; exact Bool.noConfusion he
      · rw [h2] at he; exact Bool.noConfusion he
      · rw [h3] at he; exact Bool.noConfusion he
      · rw [h4 hne] at he; exact Bool.noConfusion he
  obtain ⟨efs, he⟩ := htry
  unfold save_clip
  simp only [hnew, Bool.false_eq_true, if_false, he]
  constructor
  · cases hef : efs.existsPath (clipDirOf w cd) with
    | false => simp only [Bool.false_eq_true, if_false]; exact hef
    | true => simp only [if_true]; exact FS.existsPath_rmtree_self efs (clipDirOf w cd)
  · first
    | rfl
    | trivial

/-- C8: a completed run exits 1 exactly when clips errored (zero errors,
even with skips, exits 0); a 401 on a listing or detail request and an
unreachable server terminate the process with exit code 1, any other HTTP
error is re-raised; a missing or empty token exits 1 before any request. -/
theorem exit_status_policy (w : World) (fuel : Nat) (fs : FS) (r : RunOut)
    (_hrun : runSync w fuel fs = some r) :
    (0 < r.stats.errors → sync_all_exit r.stats = 1) ∧
      (r.stats.errors = 0 → sync_all_exit r.stats = 0) ∧
      (∀ st : Stats, st.errors = 0 → sync_all_exit st = 0) ∧
      @make_request PageResp (.httpError 401) = .exits 1 ∧
      @make_request PageResp .urlError = .exits 1 ∧
      (∀ c, c ≠ 401 → @make_request PageResp (.httpError c) = .raised c) ∧
      main_token_exit none = some 1 ∧ main_token_exit (some "") = some 1 ∧
      (∀ t : String, t ≠ "" → main_token_exit (some t) = none) := by
  refine ⟨?_, ?_, ?_, rfl, rfl, ?_, rfl, rfl, ?_⟩
  · intro h0
    unfold sync_all_exit
    rw [if_pos h0]
  · intro h0
    unfold sync_all_exit
    rw [if_neg (by omega)]
  · intro st h0
    unfold sync_all_exit
    rw [if_neg (by omega)]
  · intro c hc
    unfold make_request
    simp [hc]
  · intro t ht
    unfold main_token_exit
    simp [ht]

/-- Witness for C1 at a concrete one-clip world. -/
theorem sync_idempotent_witness :
    ∃ r1 : RunOut, runSync wC1 2 ⟨[], []⟩ = some r1 ∧
      (r1.stats.errors = 0 ∧ ∃ r2, runSync wC1 2 r1.fs = some r2 ∧ r2.fs = r1.fs ∧
        r2.stats.downloaded = 0 ∧ r2.stats.errors = 0 ∧
        r2.stats.skipped = r2.total ∧ r2.total = r1.total) :=
  ⟨_, rfl, sync_idempotent wC1 2 ⟨[], []⟩ _ (fun _ => ⟨rfl, rfl, rfl⟩) (fun _ => rfl) rfl⟩

/-- Witness for C3 at a concrete two-page world. -/
theorem pagination_terminates_witness :
    (∃ r, runSync wC3 2 ⟨[], []⟩ = some r ∧ r.requests = 2) ∧
      (∀ (w' : World) (m page : Nat) (fs' : FS) (st : Stats) (t : Nat),
        (w'.pages page).clips = [] →
          pageLoop w' (m + 1) page fs' st t = some ⟨fs', st, t, 1⟩) :=
  pagination_terminates wC3 2 2 ⟨[], []⟩ (by omega) (by omega)
    (fun k h1 h2 => by
      have hk : k = 1 := by omega
      subst hk
      exact ⟨by decide, by decide⟩)
    (by decide) rfl

/-- Witness for C10 at a concrete completed run. -/
theorem stats_counter_invariant_witness :
    ∃ r : RunOut, runSync wC1 2 ⟨[], []⟩ = some r ∧
      r.stats.downloaded + r.stats.skipped + r.stats.errors = r.total :=
  ⟨_, rfl, stats_counter_invariant.2 wC1 2 ⟨[], []⟩ _ rfl⟩

/-- Witness for C2: the metadata write raises after the content file was
written; the clip directory is gone and only errors is incremented. -/
theorem save_clip_error_cleanup_witness :
    ((⟨[], []⟩ : FS).mkdir (modeDirOf wC2 cdW2)).existsPath (clipDirOf wC2 cdW2) = false ∧
      (save_clip wC2 cdW2 ⟨[], []⟩ ⟨0, 0, 0⟩).1.existsPath (clipDirOf wC2 cdW2) = false ∧
      (save_clip wC2 cdW2 ⟨[], []⟩ ⟨0, 0, 0⟩).2 = ⟨0, 0, 1⟩ :=
  ⟨by decide,
    (save_clip_error_cleanup wC2 cdW2 ⟨[], []⟩ ⟨0, 0, 0⟩ (by decide)
      (Or.inr (Or.inr (Or.inl rfl)))).1,
    (save_clip_error_cleanup wC2 cdW2 ⟨[], []⟩ ⟨0, 0, 0⟩ (by decide)
      (Or.inr (Or.inr (Or.inl rfl)))).2⟩

/-- Witness for C8 at a concrete completed run (empty listing). -/
theorem exit_status_policy_witness :
    ∃ r : RunOut, runSync wC2 1 ⟨[], []⟩ = some r ∧
      ((0 < r.stats.errors → sync_all_exit r.stats = 1) ∧
        (r.stats.errors = 0 → sync_all_exit r.stats = 0) ∧
        (∀ st : Stats, st.errors = 0 → sync_all_exit st = 0) ∧
        @make_request PageResp (.httpError 401) = .exits 1 ∧
        @make_request PageResp .urlError = .exits 1 ∧
        (∀ c, c ≠ 401 → @make_request PageResp (.httpError c) = .raised c) ∧
        main_token_exit none = some 1 ∧ main_token_exit (some "") = some 1 ∧
        (∀ t : String, t ≠ "" → main_token_exit (some t) = none)) :=
  ⟨_, rfl, exit_status_policy wC2 1 ⟨[], []⟩ _ rfl⟩

/-! Path arithmetic used by the attachment claims. -/

theorem pySegsAux_no_slash (l : List Char) (h : '/' ∉ l) :
    ∀ cur, pySegsAux cur l = [cur ++ l] := by
  induction l with
  | nil => intro cur; simp [pySegsAux]
  | cons c rest ih =>
    intro cur
    have hc : ¬(c = '/') := by
      rintro rfl
      exact h (List.mem_cons_self _ _)
    have hrest : '/' ∉ rest := fun hr => h (List.mem_cons_of_mem _ hr)
    simp only [pySegsAux, hc, if_false]
    rw [ih hrest (cur ++ [c])]
    simp

/-- Joining a slash-free nonempty filename appends one component. -/
theorem pyJoin_no_slash (p : FsPath) (f : String) (h : '/' ∉ f.data)
    (hne : f.data ≠ []) : pyJoin p f = p ++ [f] := by
  unfold pyJoin pySegs
  have hhead : ¬(f.data.head? = some '/') := by
    intro hh
    cases hd : f.data with
    | nil => rw [hd] at hh; exact Option.noConfusion hh
    | cons c rest =>
      rw [hd] at hh
      simp only [List.head?_cons, Option.some.injEq] at hh
      subst hh
      exact h (hd ▸ List.mem_cons_self _ _)
  rw [if_neg hhead, pySegsAux_no_slash f.data h [], List.nil_append]
  rw [List.filter_cons_of_pos (by simpa using hne), List.filter_nil]
  rfl

theorem append_md_ne_media (s : String) : s ++ ".md" ≠ "media" := by
  intro h
  have hd := congrArg String.data h
  rw [String.data_append] at hd
  have hlast := congrArg List.getLast? hd
  rw [List.getLast?_append_of_ne_nil _ (by decide)] at hlast
  exact absurd hlast (by decide)

theorem append_md_ne_metadata_json (s : String) : s ++ ".md" ≠ "metadata.json" := by
  intro h
  have hd := congrArg String.data h
  rw [String.data_append] at hd
  have hlast := congrArg List.getLast? hd
  rw [List.getLast?_append_of_ne_nil _ (by decide)] at hlast
  exact absurd hlast (by decide)

theorem append_singleton_prefix_iff (a : List String) (x y : String) :
    (a ++ [x]) <+: (a ++ [y]) ↔ x = y := by
  rw [List.prefix_append_right_inj]
  constructor
  · rintro ⟨t, ht⟩
    simp only [List.cons_append, List.nil_append] at ht
    exact (List.cons.injEq x t y []).mp ht |>.1
  · rintro rfl
    exact List.prefix_refl _

theorem append_two_ne_one (a : List String) (x y z : String) :
    a ++ [x, y] ≠ a ++ [z] := by
  intro h
  have := congrArg List.length h
  simp only [List.length_append, List.length_cons, List.length_nil] at this
  omega

/-- C5: site extraction evaluated at the documented example: the code
yields githubcom (slugify drops the dots of the host), not the github-com
promised by the spec and by the script's own header docstring; an
unparsable URL yields the fixed placeholder instead of raising. -/
theorem extract_site_slug_doc_example :
    extract_site_slug "https://www.github.com/foo" = "githubcom" ∧
      extract_site_slug "https://www.github.com/foo" ≠ "github-com" ∧
      extract_site_slug "http://[" = "unknown-site" :=
  ⟨by decide, by decide, by decide⟩

/-- C7 counterexample: the value download_image returns is the same for a
not-found response and for an HTTP 500 failure (False in both cases), so a
caller cannot tell the two failure kinds apart from the returned value. -/
theorem download_image_return_indistinct :
    (download_image wC7a "c" "f.png" ["m", "f.png"] ⟨[], []⟩).2 =
        (download_image wC7b "c" "f.png" ["m", "f.png"] ⟨[], []⟩).2 ∧
      (download_image wC7a "c" "f.png" ["m", "f.png"] ⟨[], []⟩).2 = false :=
  ⟨rfl, rfl⟩

/-- C7 amended: download_image never raises and returns False alike for a
not-found response and for any other failure (True only on success); the
two failure kinds are distinguished only in the stderr message. -/
theorem download_image_outcomes (w : World) (clip_id filename : String)
    (p : FsPath) (fs : FS) :
    ((w.fetch clip_id filename = .notFound →
        (download_image w clip_id filename p fs).2 = false) ∧
      (∀ c, w.fetch clip_id filename = .httpErr c →
        (download_image w clip_id filename p fs).2 = false) ∧
      (w.fetch clip_id filename = .exn →
        (download_image w clip_id filename p fs).2 = false) ∧
      (∀ b, w.fetch clip_id filename = .ok b →
        (download_image w clip_id filename p fs).2 = true)) ∧
      (∀ c, download_image_msg .notFound filename ≠
        download_image_msg (.httpErr c) filename) ∧
      download_image_msg .notFound filename ≠ download_image_msg .exn filename := by
  refine ⟨⟨?_, ?_, ?_, ?_⟩, ?_, ?_⟩
  · intro h
    unfold download_image
    rw [h]
  · intro c h
    unfold download_image
    rw [h]
  · intro h
    unfold download_image
    rw [h]
  · intro b h
    unfold download_image
    rw [h]
  · intro c
    simp [download_image_msg]
  · simp [download_image_msg]

/-- Witness for the amended C7 statement at concrete outcomes. -/
theorem download_image_outcomes_witness :
    (wC7a.fetch "c" "f.png" = .notFound ∧
      (download_image wC7a "c" "f.png" ["m"] ⟨[], []⟩).2 = false) ∧
      (wC7b.fetch "c" "f.png" = .httpErr 500 ∧
        (download_image wC7b "c" "f.png" ["m"] ⟨[], []⟩).2 = false) :=
  ⟨⟨rfl, (download_image_outcomes wC7a "c" "f.png" ["m"] ⟨[], []⟩).1.1 rfl⟩,
    ⟨rfl, (download_image_outcomes wC7b "c" "f.png" ["m"] ⟨[], []⟩).1.2.1 500 rfl⟩⟩

/-- C9: the attachment write path is the media directory joined with the
raw server-supplied filename (sanitize_filename is not applied), so a
dot-dot filename makes save_clip write bytes to a path that resolves
outside the clip's media subdirectory and outside the clip directory,
while the sanitized filename would have stayed inside. -/
theorem attachment_path_traversal :
    (pyJoin (mediaDirOf wC9 cdW9) "../../escape.md", FileData.bytes "B") ∈
        (save_clip wC9 cdW9 ⟨[], []⟩ ⟨0, 0, 0⟩).1.files ∧
      ¬(mediaDirOf wC9 cdW9) <+:
        resolvePath (pyJoin (mediaDirOf wC9 cdW9) "../../escape.md") ∧
      ¬(clipDirOf wC9 cdW9) <+:
        resolvePath (pyJoin (mediaDirOf wC9 cdW9) "../../escape.md") ∧
      (mediaDirOf wC9 cdW9) <+:
        resolvePath (pyJoin (mediaDirOf wC9 cdW9) (sanitize_filename "../../escape.md")) :=
  ⟨by decide, by decide, by decide, by decide⟩

/-- Writing to a path no existing file occupies prepends the new file. -/
theorem FS.writeFile_fresh (fs : FS) (p : FsPath) (d : FileData)
    (h : ∀ q ∈ fs.files, q.1 ≠ p) :
    fs.writeFile p d = { fs with files := (p, d) :: fs.files } := by
  unfold FS.writeFile
  rw [if_neg]
  intro hany
  simp only [List.any_eq_true, decide_eq_true_eq] at hany
  obtain ⟨q, hq, hq1⟩ := hany
  exact h q hq hq1

/-- Evaluation of the attachment loop on two attachments of which exactly
one is found: the found one's bytes are written at its joined path, the
other leaves the filesystem alone. -/
theorem downloadImages_two (w : World) (cid : String) (med : FsPath)
    (f1 f2 b : String) (fs3 : FS)
    (hf1a : '/' ∉ f1.data) (hf1b : f1.data ≠ [])
    (hf2a : '/' ∉ f2.data) (hf2b : f2.data ≠ [])
    (hfetch : (w.fetch cid f1 = .ok b ∧ w.fetch cid f2 = .notFound) ∨
      (w.fetch cid f1 = .notFound ∧ w.fetch cid f2 = .ok b))
    (hfr1 : ∀ q ∈ fs3.files, q.1 ≠ med ++ [f1])
    (hfr2 : ∀ q ∈ fs3.files, q.1 ≠ med ++ [f2]) :
    (downloadImages w cid med [some f1, some f2] fs3).files =
        (med ++ [f1], FileData.bytes b) :: fs3.files ∨
      (downloadImages w cid med [some f1, some f2] fs3).files =
        (med ++ [f2], FileData.bytes b) :: fs3.files := by
  rcases hfetch with ⟨ha, hb⟩ | ⟨ha, hb⟩
  · left
    simp only [downloadImages, download_image, Option.getD_some, ha, hb]
    rw [pyJoin_no_slash med f1 hf1a hf1b, FS.writeFile_fresh _ _ _ hfr1]
  · right
    simp only [downloadImages, download_image, Option.getD_some, ha, hb]
    rw [pyJoin_no_slash med f2 hf2a hf2b, FS.writeFile_fresh _ _ _ hfr2]

/-- C6: for a new well-formed clip with two attachments, one found and one
not found, save_clip still counts the clip as downloaded (not errored or
skipped) and exactly one file ends up under the media subdirectory. -/
theorem attachment_isolation (w : World) (cd : ClipDetail) (fs : FS) (st : Stats)
    (f1 f2 b : String)
    (hW1 : w.writeContentOk cd.id = true) (hW2 : w.writeMetadataOk cd.id = true)
    (hW3 : w.mkdirMediaOk cd.id = true)
    (hwf : cd.wellFormed = true)
    (himgs : cd.images = some [some f1, some f2])
    (hfetch : (w.fetch cd.id f1 = .ok b ∧ w.fetch cd.id f2 = .notFound) ∨
      (w.fetch cd.id f1 = .notFound ∧ w.fetch cd.id f2 = .ok b))
    (hf1a : '/' ∉ f1.data) (hf1b : f1.data ≠ [])
    (hf2a : '/' ∉ f2.data) (hf2b : f2.data ≠ [])
    (hnew : (fs.mkdir (modeDirOf w cd)).existsPath (clipDirOf w cd) = false)
    (hclean : ∀ q ∈ fs.files, ¬(clipDirOf w cd) <+: q.1) :
    (save_clip w cd fs st).2 = ⟨st.downloaded + 1, st.skipped, st.errors⟩ ∧
      ((save_clip w cd fs st).1.files.countP
        (fun f => (mediaDirOf w cd).isPrefixOf f.1)) = 1 := by
  obtain ⟨cid, cmode, ctitle, curl, cca, ccontent, ctags, cnotes, cimages⟩ := cd
  simp only [ClipDetail.wellFormed, Bool.and_eq_true, Option.isSome_iff_exists] at hwf
  obtain ⟨⟨⟨⟨t, ht⟩, ⟨u, hu⟩⟩, ⟨m, hm2⟩⟩, ⟨ca, hca⟩⟩ := hwf
  subst ht hu hm2 hca
  simp only at himgs
  subst himgs
  set cd' : ClipDetail :=
    { id := cid, mode := some m, title := some t, url := some u, created_at := some ca,
      content := ccontent, tags := ctags, notes := cnotes,
      images := some [some f1, some f2] } with hcd
  simp only at hW1 hW2 hW3 hfetch hclean hnew ⊢
  set D := clipDirOf w cd' with hD
  set nm := clipDirNameOf w cd' with hnm
  have hmed : mediaDirOf w cd' = D ++ ["media"] := rfl
  set fs2 := (fs.mkdir (modeDirOf w cd')).mkdir D with hfs2
  have hfs2files : fs2.files = fs.files := by
    rw [hfs2, FS.mkdir_files, FS.mkdir_files]
  have hDpre : ∀ x : String, D <+: D ++ [x] := fun x => ⟨[x], rfl⟩
  have hDpre2 : ∀ x y : String, D <+: D ++ [x, y] := fun x y => ⟨[x, y], rfl⟩
  have hcfresh : ∀ q ∈ fs2.files, q.1 ≠ D ++ [nm ++ ".md"] := by
    intro q hq hqeq
    rw [hfs2files] at hq
    exact hclean q hq (hqeq ▸ hDpre (nm ++ ".md"))
  have hw1 : fs2.writeFile (D ++ [nm ++ ".md"]) (FileData.text (ccontent.getD "")) =
      { fs2 with
        files := (D ++ [nm ++ ".md"], FileData.text (ccontent.getD "")) :: fs2.files } :=
    FS.writeFile_fresh _ _ _ hcfresh
  unfold save_clip
  simp only [hnew, Bool.false_eq_true, if_false]
  unfold save_clip_try
  simp only [hW1, if_true, Option.getD_some, hW2, hW3]
  rw [← hnm, ← hD]
  refine ⟨trivial, ?_⟩
  have hmfresh : ∀ q ∈ ((D ++ [nm ++ ".md"], FileData.text (ccontent.getD "")) :: fs2.files),
      q.1 ≠ D ++ ["metadata.json"] := by
    intro q hq hqeq
    rcases List.mem_cons.mp hq with rfl | hq2
    · have hcancel := List.append_cancel_left hqeq
      simp only [List.cons.injEq, and_true] at hcancel
      exact append_md_ne_metadata_json nm hcancel
    · rw [hfs2files] at hq2
      exact hclean q hq2 (hqeq ▸ hDpre "metadata.json")
  have hw2 := FS.writeFile_fresh
    ({ dirs := fs2.dirs,
       files := (D ++ [nm ++ ".md"], FileData.text (ccontent.getD "")) :: fs2.files } : FS)
    (D ++ ["metadata.json"])
    (FileData.metadata cid t u m (ctags.getD []) (cnotes.getD "") ca w.now) hmfresh
  have hfs3files :
      ((((fs2.writeFile (D ++ [nm ++ ".md"]) (FileData.text (ccontent.getD ""))).writeFile
          (D ++ ["metadata.json"])
          (FileData.metadata cid t u m (ctags.getD []) (cnotes.getD "") ca w.now)).mkdir
            (D ++ ["media"])).files) =
        (D ++ ["metadata.json"],
          FileData.metadata cid t u m (ctags.getD []) (cnotes.getD "") ca w.now) ::
          (D ++ [nm ++ ".md"], FileData.text (ccontent.getD "")) :: fs.files := by
    rw [FS.mkdir_files, hw1, hw2]
    rw [hfs2files]
  have hfr1 : ∀ q ∈ (((fs2.writeFile (D ++ [nm ++ ".md"])
      (FileData.text (ccontent.getD ""))).writeFile (D ++ ["metadata.json"])
      (FileData.metadata cid t u m (ctags.getD []) (cnotes.getD "") ca w.now)).mkdir
        (D ++ ["media"])).files, q.1 ≠ (D ++ ["media"]) ++ [f1] := by
    rw [hfs3files]
    intro q hq hqeq
    rw [List.append_assoc] at hqeq
    rcases List.mem_cons.mp hq with rfl | hq2
    · exact append_two_ne_one D "media" f1 "metadata.json" hqeq.symm
    · rcases List.mem_cons.mp hq2 with rfl | hq3
      · exact append_two_ne_one D "media" f1 (nm ++ ".md") hqeq.symm
      · exact hclean q hq3 (hqeq ▸ hDpre2 "media" f1)
  have hfr2 : ∀ q ∈ (((fs2.writeFile (D ++ [nm ++ ".md"])
      (FileData.text (ccontent.getD ""))).writeFile (D ++ ["metadata.json"])
      (FileData.metadata cid t u m (ctags.getD []) (cnotes.getD "") ca w.now)).mkdir
        (D ++ ["media"])).files, q.1 ≠ (D ++ ["media"]) ++ [f2] := by
    rw [hfs3files]
    intro q hq hqeq
    rw [List.append_assoc] at hqeq
    rcases List.mem_cons.mp hq with rfl | hq2
    · exact append_two_ne_one D "media" f2 "metadata.json" hqeq.symm
    · rcases List.mem_cons.mp hq2 with rfl | hq3
      · exact append_two_ne_one D "media" f2 (nm ++ ".md") hqeq.symm
      · exact hclean q hq3 (hqeq ▸ hDpre2 "media" f2)
  have hatt : ∀ g : String, (D ++ ["media"]).isPrefixOf ((D ++ ["media"]) ++ [g]) = true :=
    fun g => List.isPrefixOf_iff_prefix.mpr (List.prefix_append _ _)
  have h2 : (D ++ ["media"]).isPrefixOf (D ++ ["metadata.json"]) = false := by
    rw [Bool.eq_false_iff]
    intro hT
    exact absurd ((append_singleton_prefix_iff D "media" "metadata.json").mp
      (List.isPrefixOf_iff_prefix.mp hT)) (by decide)
  have h3 : (D ++ ["media"]).isPrefixOf (D ++ [nm ++ ".md"]) = false := by
    rw [Bool.eq_false_iff]
    intro hT
    exact append_md_ne_media nm
      ((append_singleton_prefix_iff D "media" (nm ++ ".md")).mp
        (List.isPrefixOf_iff_prefix.mp hT)).symm
  have hz : List.countP (fun f => (D ++ ["media"]).isPrefixOf f.1) fs.files = 0 := by
    rw [List.countP_eq_zero]
    intro a ha hpa
    exact hclean a ha ((hDpre "media").trans (List.isPrefixOf_iff_prefix.mp hpa))
  rw [← hfs2]
  rcases downloadImages_two w cid (D ++ ["media"]) f1 f2 b
      (((fs2.writeFile (D ++ [nm ++ ".md"]) (FileData.text (ccontent.getD ""))).writeFile
        (D ++ ["metadata.json"])
        (FileData.metadata cid t u m (ctags.getD []) (cnotes.getD "") ca w.now)).mkdir
          (D ++ ["media"]))
      hf1a hf1b hf2a hf2b hfetch hfr1 hfr2 with hdl | hdl <;>
    (rw [hdl, hfs3files]; simp only [hmed, List.countP_cons, hatt, h2, h3, hz]; simp)

/-- Witness for C6 at a concrete two-attachment clip. -/
theorem attachment_isolation_witness :
    (save_clip wC6 cdW6 ⟨[], []⟩ ⟨0, 0, 0⟩).2 = ⟨1, 0, 0⟩ ∧
      ((save_clip wC6 cdW6 ⟨[], []⟩ ⟨0, 0, 0⟩).1.files.countP
        (fun f => (mediaDirOf wC6 cdW6).isPrefixOf f.1)) = 1 :=
  attachment_isolation wC6 cdW6 ⟨[], []⟩ ⟨0, 0, 0⟩ "a.png" "b.png" "IMG"
    rfl rfl rfl rfl rfl (Or.inl ⟨by decide, by decide⟩)
    (by decide) (by decide) (by decide) (by decide)
    (by decide) (fun q hq => absurd hq (List.not_mem_nil q))

/-! Properties of slugify used by the slug claim. -/

theorem mem_collapseAux (c : Char) : ∀ (b : Bool) (l : List Char),
    c ∈ collapseAux b l → c ∈ l := by
  intro b l
  induction l generalizing b with
  | nil => intro h; exact absurd h (List.not_mem_nil c)
  | cons a rest ih =>
    intro h
    unfold collapseAux at h
    by_cases ha : a = '-'
    · rw [if_pos ha] at h
      cases b with
      | true =>
        simp only [if_true] at h
        exact List.mem_cons_of_mem _ (ih true h)
      | false =>
        simp only [Bool.false_eq_true, if_false] at h
        rcases List.mem_cons.mp h with rfl | h2
        · exact ha ▸ List.mem_cons_self _ _
        · exact List.mem_cons_of_mem _ (ih true h2)
    · rw [if_neg ha] at h
      rcases List.mem_cons.mp h with rfl | h2
      · exact List.mem_cons_self _ _
      · exact List.mem_cons_of_mem _ (ih false h2)

theorem collapseAux_true_head (l : List Char) :
    (collapseAux true l).head? ≠ some '-' := by
  induction l with
  | nil => intro h; exact Option.noConfusion h
  | cons a rest ih =>
    unfold collapseAux
    by_cases ha : a = '-'
    · rw [if_pos ha]
      simpa using ih
    · rw [if_neg ha]
      intro h
      simp only [List.head?_cons, Option.some.injEq] at h
      exact ha h

theorem chain'_collapseAux : ∀ (b : Bool) (l : List Char),
    List.Chain' (fun a c => ¬(a = '-' ∧ c = '-')) (collapseAux b l) := by
  intro b l
  induction l generalizing b with
  | nil => exact List.chain'_nil
  | cons a rest ih =>
    unfold collapseAux
    by_cases ha : a = '-'
    · rw [if_pos ha]
      cases b with
      | true => simpa using ih true
      | false =>
        simp only [Bool.false_eq_true, if_false]
        rw [List.chain'_cons']
        refine ⟨?_, ih true⟩
        intro y hy hcontra
        have hhead : (collapseAux true rest).head? = some '-' := by
          rcases hcontra with ⟨-, rfl⟩
          exact hy
        exact collapseAux_true_head rest hhead
    · rw [if_neg ha]
      rw [List.chain'_cons']
      refine ⟨?_, ih false⟩
      intro y hy hcontra
      exact ha hcontra.1

theorem collapseAux_length (b : Bool) (l : List Char) :
    (collapseAux b l).length ≤ l.length := by
  induction l generalizing b with
  | nil => exact Nat.le_refl _
  | cons a rest ih =>
    unfold collapseAux
    by_cases ha : a = '-'
    · rw [if_pos ha]
      cases b with
      | true =>
        simp only [if_true]
        exact Nat.le_trans (ih true) (Nat.le_succ _)
      | false =>
        simp only [Bool.false_eq_true, if_false, List.length_cons]
        exact Nat.succ_le_succ (ih true)
    · rw [if_neg ha]
      simp only [List.length_cons]
      exact Nat.succ_le_succ (ih false)

theorem dropWhile_head?_not (p : Char → Bool) (l : List Char) (c : Char)
    (h : (l.dropWhile p).head? = some c) : p c = false := by
  induction l with
  | nil => exact absurd h (by simp)
  | cons a rest ih =>
    rw [List.dropWhile_cons] at h
    by_cases ha : p a = true
    · rw [if_pos ha] at h
      exact ih h
    · rw [if_neg ha] at h
      simp only [List.head?_cons, Option.some.injEq] at h
      subst h
      exact Bool.eq_false_iff.mpr ha

theorem prefix_head?_some {α : Type} (l₁ l₂ : List α) (c : α)
    (hpre : l₁ <+: l₂) (h : l₁.head? = some c) : l₂.head? = some c := by
  obtain ⟨t, rfl⟩ := hpre
  cases l₁ with
  | nil => exact absurd h (by simp)
  | cons a rest => simpa using h

theorem rdropWhile_getLast?_not (p : Char → Bool) (l : List Char) (c : Char)
    (h : (l.rdropWhile p).getLast? = some c) : p c = false := by
  have hne : l.rdropWhile p ≠ [] := by
    intro hnil
    rw [hnil] at h
    exact Option.noConfusion h
  rw [List.getLast?_eq_getLast _ hne] at h
  simp only [Option.some.injEq] at h
  subst h
  exact Bool.eq_false_iff.mpr (List.rdropWhile_last_not p l hne)

theorem stripHyphens_subset (l : List Char) : stripHyphens l ⊆ l := by
  intro x hx
  unfold stripHyphens at hx
  exact (List.dropWhile_suffix _).sublist.subset
    ((List.rdropWhile_prefix _ _).sublist.subset hx)

theorem stripHyphens_length (l : List Char) : (stripHyphens l).length ≤ l.length := by
  unfold stripHyphens
  exact Nat.le_trans (List.rdropWhile_prefix _ _).sublist.length_le
    (List.dropWhile_suffix _).sublist.length_le

/-- The character-map stages of slugify compose to pyNormChar. -/
theorem slugify_map_stage (l : List Char) :
    replaceChar '_' '-' (replaceChar ' ' '-' (l.map Char.toLower)) = l.map pyNormChar := by
  simp only [replaceChar, List.map_map]
  rfl

/-- slugify unfolded into its normalisation, filter, collapse, strip and
truncate stages. -/
theorem slugify_data (s : String) :
    (slugify s).data =
      (stripHyphens (collapseHyphens ((s.data.map pyNormChar).filter isSlugChar))).take 200 := by
  show slugifyL s.data = _
  simp only [slugifyL]
  rw [slugify_map_stage]

/-- C4: slugify lowercases, maps spaces and underscores to hyphens, drops
every other character outside [a-z0-9-] (it introduces no replacement
character), collapses hyphen runs, trims leading hyphens (and trailing
hyphens whenever truncation is not reached), and truncates to 200
characters; the spec's two examples and a drop-not-replace example hold. -/
theorem slugify_properties :
    slugify "My Article!! Title" = "my-article-title" ∧
      slugify "  -- weird_Name__ --" = "weird-name" ∧
      slugify "a!b" = "ab" ∧
      (∀ s : String, (slugify s).data.length ≤ 200) ∧
      (∀ s : String, ∀ c ∈ (slugify s).data, isSlugChar c = true) ∧
      (∀ s : String, ∀ c ∈ (slugify s).data, c ∈ s.data.map pyNormChar) ∧
      (∀ s : String, (slugify s).data.head? ≠ some '-') ∧
      (∀ s : String, List.Chain' (fun a c => ¬(a = '-' ∧ c = '-')) (slugify s).data) ∧
      (∀ s : String, s.data.length ≤ 200 → (slugify s).data.getLast? ≠ some '-') := by
  refine ⟨by decide, by decide, by decide, ?_, ?_, ?_, ?_, ?_, ?_⟩
  · intro s
    rw [slugify_data]
    exact List.length_take_le _ _
  · intro s c hc
    rw [slugify_data] at hc
    have h1 : c ∈ stripHyphens (collapseHyphens ((s.data.map pyNormChar).filter isSlugChar)) :=
      List.take_subset _ _ hc
    have h2 : c ∈ collapseHyphens ((s.data.map pyNormChar).filter isSlugChar) :=
      stripHyphens_subset _ h1
    have h3 : c ∈ (s.data.map pyNormChar).filter isSlugChar :=
      mem_collapseAux c false _ h2
    exact List.of_mem_filter h3
  · intro s c hc
    rw [slugify_data] at hc
    have h1 : c ∈ stripHyphens (collapseHyphens ((s.data.map pyNormChar).filter isSlugChar)) :=
      List.take_subset _ _ hc
    have h2 : c ∈ collapseHyphens ((s.data.map pyNormChar).filter isSlugChar) :=
      stripHyphens_subset _ h1
    have h3 : c ∈ (s.data.map pyNormChar).filter isSlugChar :=
      mem_collapseAux c false _ h2
    exact (List.mem_filter.mp h3).1
  · intro s h
    rw [slugify_data] at h
    have h1 : (stripHyphens (collapseHyphens
        ((s.data.map pyNormChar).filter isSlugChar))).head? = some '-' :=
      prefix_head?_some _ _ _ (List.take_prefix _ _) h
    unfold stripHyphens at h1
    have h2 : ((collapseHyphens ((s.data.map pyNormChar).filter isSlugChar)).dropWhile
        (fun c => decide (c = '-'))).head? = some '-' :=
      prefix_head?_some _ _ _ (List.rdropWhile_prefix _ _) h1
    have h3 := dropWhile_head?_not _ _ _ h2
    simp at h3
  · intro s
    rw [slugify_data]
    refine List.Chain'.take ?_ _
    unfold stripHyphens
    refine List.Chain'.prefix ?_ (List.rdropWhile_prefix _ _)
    refine List.Chain'.suffix ?_ (List.dropWhile_suffix _)
    exact chain'_collapseAux false _
  · intro s hlen h
    rw [slugify_data] at h
    have hlen2 : (stripHyphens (collapseHyphens
        ((s.data.map pyNormChar).filter isSlugChar))).length ≤ 200 := by
      refine Nat.le_trans (stripHyphens_length _) ?_
      refine Nat.le_trans (collapseAux_length false _) ?_
      refine Nat.le_trans (List.length_filter_le _ _) ?_
      rw [List.length_map]
      exact hlen
    rw [List.take_of_length_le hlen2] at h
    unfold stripHyphens at h
    have h2 := rdropWhile_getLast?_not _ _ _ h
    simp at h2

/-- Witness for the conditional conjuncts of the slugify claim at a
concrete input. -/
theorem slugify_properties_witness :
    ("abc--d".data.length ≤ 200 ∧ (slugify "abc--d").data.getLast? ≠ some '-') ∧
      (slugify "abc--d").data.head? ≠ some '-' :=
  ⟨⟨by decide, slugify_properties.2.2.2.2.2.2.2.2 "abc--d" (by decide)⟩,
    slugify_properties.2.2.2.2.2.2.1 "abc--d"⟩
